import Mathlib

/-!
Verification development for the macaroni-arch static-analysis pipeline.

The TypeScript source is shallowly embedded: JavaScript `Map` objects become
insertion-ordered association lists, JavaScript `Set` objects become
duplicate-free insertion-ordered lists, file contents are explicit `String`
values, and the regex-driven scanners of the per-language analyzers are
re-implemented as character-list parsers that recognise the same languages as
the source regexes.  Fallible file reads are modelled with `Option String`.
-/

namespace Util

/-- Word characters in the sense of the regex class used by the source
(ASCII letters, digits and underscore). -/
def isWordChar (c : Char) : Bool := c.isAlphanum || c == '_'

/-- Whitespace in the sense of the regex class used by the source. -/
def isWsChar (c : Char) : Bool :=
  c == ' ' || c == '\t' || c == '\r' || c == '\n' || c == '\x0b' || c == '\x0c'

/-- Does the pattern occur at the head of the character list? -/
def leadMatch : List Char → List Char → Bool
  | [], _ => true
  | _ :: _, [] => false
  | p :: ps, h :: hs => p == h && leadMatch ps hs

/-- Does the pattern occur anywhere inside the character list? -/
def subScan (pat : List Char) : List Char → Bool
  | [] => pat.isEmpty
  | h :: hs => leadMatch pat (h :: hs) || subScan pat hs

/-- Embedding of the JavaScript `hay.includes(pat)` substring test. -/
def strContains (hay pat : String) : Bool := subScan pat.data hay.data

/-- Drop leading regex whitespace. -/
def dropWs (l : List Char) : List Char := l.dropWhile isWsChar

/-- Consume a literal at the head of the list, returning the rest. -/
def dropLit : List Char → List Char → Option (List Char)
  | [], l => some l
  | _ :: _, [] => none
  | p :: ps, h :: hs => if p == h then dropLit ps hs else none

/-- Maximal run of characters satisfying a predicate, plus the remainder. -/
def takeRun (p : Char → Bool) (l : List Char) : List Char × List Char :=
  (l.takeWhile p, l.dropWhile p)

/-- Consume at least one whitespace character (the regex `\s+`). -/
def dropWsPlus (l : List Char) : Option (List Char) :=
  match l with
  | [] => none
  | c :: _ => if isWsChar c then some (dropWs l) else none

/-- Add an element to an insertion-ordered set (JavaScript `Set.add`). -/
def addUnique (l : List String) (x : String) : List String :=
  if l.contains x then l else l ++ [x]

/-- Add a `Nat` to an insertion-ordered set of indices. -/
def addNat (l : List Nat) (x : Nat) : List Nat :=
  if l.contains x then l else l ++ [x]

/-- Structural split of a character list on a separator character, with the
same semantics as `String.splitOn` for a one-character separator. -/
def splitChar (sep : Char) : List Char → List (List Char)
  | [] => [[]]
  | c :: rest =>
    match splitChar sep rest with
    | [] => [[c]]
    | h :: t => if c == sep then [] :: h :: t else (c :: h) :: t

/-- The lines of a string (`content.split` on a newline). -/
def linesOf (content : String) : List String :=
  (splitChar '\n' content.data).map (fun l => String.mk l)

/-- The slash-separated segments of a path. -/
def pathSegs (p : String) : List String :=
  (splitChar '/' p.data).map (fun l => String.mk l)

/-- Everything before the first occurrence of a (non-empty) separator:
`s.split(sep)[0]`. -/
def beforeSub (sep : List Char) : List Char → List Char
  | [] => []
  | c :: rest =>
    if leadMatch sep (c :: rest) then [] else c :: beforeSub sep rest

/-- Join with a separator (`Array.join` / `String.intercalate`). -/
def joinWith (sep : String) : List String → String
  | [] => ""
  | [x] => x
  | x :: xs => x ++ sep ++ joinWith sep xs

/-- ASCII whitespace trim, the model of `String.prototype.trim`. -/
def strTrim (s : String) : String :=
  String.mk (((s.data.dropWhile isWsChar).reverse.dropWhile isWsChar).reverse)

/-- Code-point lexicographic comparison of character lists. -/
def charListLe : List Char → List Char → Bool
  | [], _ => true
  | _ :: _, [] => false
  | a :: la, b :: lb =>
    if a.toNat < b.toNat then true
    else if b.toNat < a.toNat then false
    else charListLe la lb

/-- Code-point lexicographic string comparison. -/
def strLexLe (a b : String) : Bool := charListLe a.data b.data

/-- Structural `String.startsWith`. -/
def strStartsWith (s pat : String) : Bool := leadMatch pat.data s.data

/-- Structural `String.endsWith`. -/
def strEndsWith (s pat : String) : Bool :=
  leadMatch pat.data.reverse s.data.reverse

/-- Structural `String.drop`. -/
def strDrop (s : String) (n : Nat) : String := String.mk (s.data.drop n)

/-- Structural `String.dropRight`. -/
def strDropRight (s : String) (n : Nat) : String :=
  String.mk (s.data.take (s.data.length - n))

/-- Embedding of JavaScript `Map.set`: replace the binding of an existing key
in place, otherwise append the new binding. -/
def aset (m : List (String × α)) (k : String) (v : α) : List (String × α) :=
  match m with
  | [] => [(k, v)]
  | (k2, v2) :: r => if k2 == k then (k, v) :: r else (k2, v2) :: aset r k v

/-- Embedding of JavaScript `Map.get` (first binding of the key). -/
def aget (m : List (String × α)) (k : String) : Option α :=
  match m with
  | [] => none
  | (k2, v2) :: r => if k2 == k then some v2 else aget r k

end Util

namespace Filter

open Util

/-- Code-extension allow-list from `analyzers/constants.ts` (`CODE_EXTENSIONS`). -/
def CODE_EXTENSIONS : List String :=
  [".ts", ".tsx", ".js", ".jsx", ".vue",
   ".py",
   ".cpp", ".c", ".h", ".hpp", ".cc", ".cxx", ".hxx", ".hh",
   ".java",
   ".cs",
   ".go",
   ".rs", ".rb", ".php", ".swift", ".kt", ".scala"]

/-- Excluded-directory markers from `analyzers/constants.ts` (`EXCLUDED_DIRS`);
each entry carries its trailing slash exactly as in the source. -/
def EXCLUDED_DIRS : List String :=
  ["node_modules/", "bower_components/", "vendor/", "dist/", "build/",
   ".git/", "coverage/", "__pycache__/", ".venv/", "venv/"]

/-- One file passes the filter of `cloneAndAnalyze` (gitRepoAnalyzer.ts:93-97):
non-blank, no excluded-directory marker occurs as a substring
(`file.includes(dir)`), and some allow-listed extension is a suffix
(`file.endsWith(ext)`). -/
def fileAdmitted (f : String) : Bool :=
  (strTrim f != "") &&
  !(EXCLUDED_DIRS.any (fun d => strContains f d)) &&
  (CODE_EXTENSIONS.any (fun e => strEndsWith f e))

/-- The three chained `.filter` calls of `cloneAndAnalyze`. -/
def filterRepoFiles (lines : List String) : List String :=
  ((lines.filter (fun f => strTrim f != "")).filter
    (fun f => !(EXCLUDED_DIRS.any (fun d => strContains f d)))).filter
    (fun f => CODE_EXTENSIONS.any (fun e => strEndsWith f e))

/-- Modelled from the spec: a file is admitted if its extension is in the
allow-list and no path segment equals an excluded-directory name.  This is the
segment-based reading of the deny-list stated in the specification. -/
def specSegmentAdmitted (f : String) : Bool :=
  (CODE_EXTENSIONS.any (fun e => strEndsWith f e)) &&
  ((pathSegs f).all (fun seg =>
    !(EXCLUDED_DIRS.any (fun d => d == seg ++ "/"))))

end Filter

namespace JS

open Util

/-- Kinds of import specifiers distinguished by `countImportsInDeclaration`
(analyzers/javascript.ts). -/
inductive SpecKind where
  | named
  | dflt
  | star
  | other
deriving DecidableEq, Repr

/-- One `ImportDeclaration` node: its source string and its specifiers. -/
structure ImportClause where
  source : String
  specs : List SpecKind
deriving DecidableEq, Repr

/-- javascript.ts `countImportsInDeclaration`: 0 for a side-effect-only
clause, else the number of specifiers of the three counted kinds. -/
def countImportsInDeclaration (specs : List SpecKind) : Nat :=
  if specs.isEmpty then 0
  else (specs.filter (fun s => s == SpecKind.named || s == SpecKind.dflt ||
    s == SpecKind.star)).length

/-- The body of the `makeOnAfterFile` handler (javascript.ts:84-92): for
each import declaration, `fileCounts.set(specifier, count || 1)`.  A
repeated specifier therefore overwrites the earlier binding. -/
def processFileImports (clauses : List ImportClause) : List (String × Nat) :=
  clauses.foldl
    (fun m c =>
      let n := countImportsInDeclaration c.specs
      aset m c.source (if n == 0 then 1 else n)) []

/-- javascript.ts `normalizeFilePath`: strip a `.ts/.tsx/.js/.jsx` suffix. -/
def normalizeFilePath (p : String) : String :=
  if strEndsWith p ".tsx" then strDropRight p 4
  else if strEndsWith p ".jsx" then strDropRight p 4
  else if strEndsWith p ".ts" then strDropRight p 3
  else if strEndsWith p ".js" then strDropRight p 3
  else p

/-- Model of `path.join(repoPath, file)` for the slash-free-join case used by
`isModulePathMatch`. -/
def pathJoin (a b : String) : String := a ++ "/" ++ b

/-- javascript.ts `isModulePathMatch`. -/
def isModulePathMatch (modulePath file repoPath : String) : Bool :=
  modulePath == file ||
  modulePath == pathJoin repoPath file ||
  modulePath == ("./" ++ file) ||
  normalizeFilePath modulePath == normalizeFilePath file ||
  strEndsWith modulePath ("/" ++ file) ||
  strEndsWith (normalizeFilePath modulePath) ("/" ++ normalizeFilePath file)

/-- javascript.ts `findModulePathKey`. -/
def findModulePathKey (file : String) (deps : List (String × List String))
    (repoPath : String) : Option String :=
  (deps.find? (fun e => isModulePathMatch e.1 file repoPath)).map (fun e => e.1)

/-- javascript.ts `matchDependencyToFile`. -/
def matchDependencyToFile (dep : String) (files : List String)
    (repoPath : String) : Option String :=
  files.find? (fun f => isModulePathMatch dep f repoPath)

/-- javascript.ts `normalizeImportSpecifier`.  The two chained relative
replacements are embedded exactly: the first strips a leading `.` with an
optional `/`, the second then strips a leading `../` when still present. -/
def normalizeImportSpecifier (s : String) : String :=
  if strStartsWith s "./" || strStartsWith s "../" then
    let r1 := if strStartsWith s "./" then strDrop s 2
      else if strStartsWith s "." then strDrop s 1 else s
    if strStartsWith r1 "../" then strDrop r1 3 else r1
  else if strStartsWith s "~/" then "src/app/" ++ strDrop s 2
  else s

/-- javascript.ts `findImportCount`: first specifier whose normalised form is
contained in the normalised dependency path wins; default 1. -/
def findImportCount (dep : String) : List (String × Nat) → Nat
  | [] => 1
  | (spec, count) :: rest =>
    if strContains (normalizeFilePath dep)
        (normalizeFilePath (normalizeImportSpecifier spec)) then count
    else findImportCount dep rest

/-- javascript.ts `buildDependencyCountMap`. -/
def buildDependencyCountMap (deps : List String) (files : List String)
    (repoPath : String) (fileCounts : List (String × Nat)) :
    List (String × Nat) :=
  deps.foldl
    (fun m dep =>
      match matchDependencyToFile dep files repoPath with
      | some f => aset m f (findImportCount dep fileCounts)
      | none => m) []

/-- The pure core of `jsAnalyzer.analyzeAll` (javascript.ts:320-334).  The
output of the madge repository scan and the per-file import declarations seen
by the `onAfterFile` detective hook are passed in as parameters, since they
come from an external parser. -/
def jsAnalyzeAllCore (files : List String) (repoPath : String)
    (madgeDeps : List (String × List String))
    (importDecls : List (String × List ImportClause)) :
    List (String × List (String × Nat)) :=
  files.foldl
    (fun acc file =>
      match findModulePathKey file madgeDeps repoPath with
      | none => acc
      | some key =>
        let deps := (aget madgeDeps key).getD []
        if deps.isEmpty then acc
        else
          let fileCounts := processFileImports ((aget importDecls file).getD [])
          let depCountMap := buildDependencyCountMap deps files repoPath fileCounts
          if depCountMap.isEmpty then acc else aset acc file depCountMap) []

/-- The end-to-end-scenario inputs of the specification: `a.ts` holds
`import \x7b x, y \x7d from ./b` followed by `import z from ./b`. -/
def scenarioFiles : List String := ["a.ts", "b.ts"]

/-- madge resolves the `./b` imports of `a.ts` to `b.ts`. -/
def scenarioMadgeDeps : List (String × List String) := [("a.ts", ["b.ts"])]

/-- The two import declarations the detective hook reports for `a.ts`:
one with two named specifiers and one with a default specifier, both with
source `./b`. -/
def scenarioImportDecls : List (String × List ImportClause) :=
  [("a.ts", [⟨"./b", [SpecKind.named, SpecKind.named]⟩,
             ⟨"./b", [SpecKind.dflt]⟩])]

end JS

namespace Util

/-- Counts the places where `sym` occurs with a non-word character (or an end
of string) on both sides; when `banParen` is set, an occurrence directly
followed by `(` is not counted (the python analyzer's negative lookahead).
Occurrences of a word-only pattern can never overlap, so per-position counting
agrees with the global regex scan of the source. -/
def wordHitsFrom (sym : List Char) (banParen : Bool) :
    Option Char → List Char → Nat
  | prev, hay =>
    let boundaryOk := match prev with
      | none => true
      | some c => !isWordChar c
    let afterOk := match hay.drop sym.length with
      | [] => true
      | c :: _ => !isWordChar c && (!banParen || c != '(')
    (if boundaryOk && leadMatch sym hay && afterOk then 1 else 0) +
      (match hay with
       | [] => 0
       | c :: rest => wordHitsFrom sym banParen (some c) rest)

/-- python.ts symbol-usage counting: occurrences of the regex built from
a symbol with word boundaries and a negative lookahead for `(`. -/
def pyCountSymbolUses (sym content : String) : Nat :=
  wordHitsFrom sym.data true none content.data

/-- Whole-word occurrence count (the C# and Go analyzers' class/symbol
reference pattern). -/
def wordCount (sym content : String) : Nat :=
  wordHitsFrom sym.data false none content.data

/-- Model of Node `path.dirname` for the relative forward-slash paths handled
by the analyzers: everything before the final slash, `.` when there is none. -/
def pathDirname (p : String) : String :=
  let parts := pathSegs p
  if parts.length ≤ 1 then "." else joinWith "/" parts.dropLast

/-- Iterated `path.dirname` (the python analyzer's relative-import loop). -/
def iterDirname : Nat → String → String
  | 0, s => s
  | n + 1, s => iterDirname n (pathDirname s)

end Util

namespace Py

open Util

/-- Parses one line against the declaration regex of `extractPythonSymbols`
(python.ts): optional leading whitespace, the keyword, at least one
whitespace, then a non-empty word-character run. -/
def parseDeclName (kw : String) (line : String) : Option String :=
  match dropLit kw.data (dropWs line.data) with
  | none => none
  | some rest =>
    match dropWsPlus rest with
    | none => none
    | some r2 =>
      let w := (takeRun isWordChar r2).1
      if w.isEmpty then none else some (String.mk w)

/-- python.ts `extractPythonSymbols`: all class names (in line order), then
all function names, collected into an insertion-ordered set. -/
def extractPythonSymbols (content : String) : List String :=
  let lines := linesOf content
  let afterClasses := lines.foldl
    (fun s l => match parseDeclName "class" l with
      | some n => addUnique s n
      | none => s) []
  lines.foldl
    (fun s l => match parseDeclName "def" l with
      | some n => addUnique s n
      | none => s) afterClasses

/-- python.ts module-path derivation: strip `.py`, strip a trailing
`/__init__`, then join the path segments with dots. -/
def pyModulePath (file : String) : String :=
  let m1 := if strEndsWith file ".py" then strDropRight file 3 else file
  let m2 := if strEndsWith m1 "/__init__" then strDropRight m1 9 else m1
  joinWith "." (pathSegs m2)

/-- python.ts `buildPythonModuleCache` over in-memory contents. -/
def buildPythonModuleCache (files : List (String × String)) :
    List (String × String × List String) :=
  files.map (fun fc => (fc.1, pyModulePath fc.1, extractPythonSymbols fc.2))

/-- python.ts relative-import module join:
`target.split(path.sep).filter(p => p).join(.)`. -/
def moduleJoin (s : String) : String :=
  joinWith "." ((pathSegs s).filter (fun p => p != ""))

/-- python.ts `pythonImportToFilePaths`. -/
def pythonImportToFilePaths (cache : List (String × String × List String))
    (importStatement : String) (fromModule : Option String)
    (currentFile : Option String) : List String :=
  cache.foldl
    (fun acc entry =>
      let filePath := entry.1
      let modulePath := entry.2.1
      let symbols := entry.2.2
      if currentFile == some filePath then acc
      else
        match fromModule with
        | some fm =>
          if strStartsWith fm "." then
            match currentFile with
            | none => acc
            | some cf =>
              let currentDir := pathDirname cf
              let dots := (fm.data.takeWhile (fun c => c == '.')).length
              let rest := strDrop fm dots
              let targetDir := iterDirname (dots - 1) currentDir
              let expectedModule :=
                if rest != "" then moduleJoin (targetDir ++ "/" ++ rest)
                else moduleJoin targetDir
              if (modulePath == expectedModule ||
                  strStartsWith modulePath (expectedModule ++ ".")) &&
                 (symbols.contains importStatement || importStatement == "*")
              then acc ++ [filePath] else acc
          else
            if (modulePath == fm || strStartsWith modulePath (fm ++ ".")) &&
               (symbols.contains importStatement || importStatement == "*")
            then acc ++ [filePath] else acc
        | none =>
          if modulePath == importStatement ||
             strStartsWith modulePath (importStatement ++ ".")
          then acc ++ [filePath] else acc) []

/-- Stdlib / common third-party roots skipped by the python analyzer. -/
def stdRootsPy : List String :=
  ["sys", "os", "re", "json", "datetime", "collections", "typing",
   "pathlib", "io", "time", "random", "math", "logging", "unittest",
   "argparse", "subprocess", "threading", "multiprocessing", "asyncio",
   "django", "flask", "numpy", "pandas", "requests", "pytest",
   "sqlalchemy", "redis", "celery", "boto3", "pydantic"]

/-- python.ts `isStandardLibrary`. -/
def isStandardLibraryPy (m : String) : Bool :=
  stdRootsPy.any (fun p => m == p || strStartsWith m (p ++ "."))

/-- Parses one line against `^\s*import\s+([\w.]+)`. -/
def parseImportLine (line : String) : Option String :=
  match dropLit "import".data (dropWs line.data) with
  | none => none
  | some rest =>
    match dropWsPlus rest with
    | none => none
    | some r2 =>
      let w := (takeRun (fun c => isWordChar c || c == '.') r2).1
      if w.isEmpty then none else some (String.mk w)

/-- Parses one line against `^\s*from\s+([\w.]+)\s+import\s+(.+)`, returning
the module and the raw import list.  A match whose import list is all
whitespace yields no symbols downstream in the source, and is treated as a
non-match here. -/
def parseFromImportLine (line : String) : Option (String × String) :=
  match dropLit "from".data (dropWs line.data) with
  | none => none
  | some rest =>
    match dropWsPlus rest with
    | none => none
    | some r2 =>
      let (w, r3) := takeRun (fun c => isWordChar c || c == '.') r2
      if w.isEmpty then none
      else
        match dropWsPlus r3 with
        | none => none
        | some r4 =>
          match dropLit "import".data r4 with
          | none => none
          | some r5 =>
            match dropWsPlus r5 with
            | none => none
            | some r6 =>
              if r6.isEmpty then none
              else some (String.mk w, String.mk r6)

/-- python.ts `extractImports`: plain-import modules (an insertion-ordered
set) and from-import symbols (module → insertion-ordered symbol set). -/
def pyExtractImports (content : String) :
    List String × List (String × List String) :=
  let lines := linesOf content
  let imports := lines.foldl
    (fun s l => match parseImportLine l with
      | some m => if isStandardLibraryPy m then s else addUnique s m
      | none => s) []
  let fromImports := lines.foldl
    (fun m l => match parseFromImportLine l with
      | some (modName, importList) =>
        if isStandardLibraryPy modName then m
        else
          let syms := (((splitChar ',' importList.data).map
              (fun l => String.mk l)).map
            (fun s => strTrim (String.mk
              (beforeSub " as ".data (strTrim s).data)))).filter
            (fun s => s != "")
          syms.foldl
            (fun m2 sym => aset m2 modName (addUnique ((aget m2 modName).getD []) sym))
            (if (aget m modName).isSome then m else aset m modName [])
      | none => m) []
  (imports, fromImports)

/-- `fileDeps.set(dep, (fileDeps.get(dep) || 0) + c)`. -/
def addCount (m : List (String × Nat)) (k : String) (c : Nat) :
    List (String × Nat) :=
  aset m k (((aget m k).getD 0) + c)

/-- python.ts `pythonAnalyzeAll` (the in-process analyzer with symbol-usage
counting) over in-memory contents. -/
def pythonAnalyzeAll (files : List (String × String)) :
    List (String × List (String × Nat)) :=
  let cache := buildPythonModuleCache files
  files.foldl
    (fun acc fc =>
      let file := fc.1
      let content := fc.2
      let (imports, fromImports) := pyExtractImports content
      let deps1 := imports.foldl
        (fun m im =>
          (pythonImportToFilePaths cache im none (some file)).foldl
            (fun m2 dep => addCount m2 dep 1) m) []
      let fileDeps := fromImports.foldl
        (fun m entry =>
          let modName := entry.1
          entry.2.foldl
            (fun m2 sym =>
              if sym == "*" then
                (pythonImportToFilePaths cache sym (some modName) (some file)).foldl
                  (fun m3 dep => addCount m3 dep 1) m2
              else
                (pythonImportToFilePaths cache sym (some modName) (some file)).foldl
                  (fun m3 dep =>
                    let n := pyCountSymbolUses sym content
                    if n > 0 then addCount m3 dep n else m3) m2) m) deps1
      if fileDeps.isEmpty then acc else aset acc file fileDeps) []

/-- The python end-to-end scenario of the specification. -/
def pyScenarioFiles : List (String × String) :=
  [("pkg/__init__.py", ""),
   ("pkg/m.py", "class Foo: pass\ndef bar(): pass"),
   ("app.py", "from pkg.m import *\nFoo(); bar(); bar()")]

end Py

namespace CS

open Util

/-- Scan for the first match of the unanchored regex
`namespace\s+([\w.]+)` used by `extractNamespaceAndClass` (csharp.ts). -/
def findNamespaceIn : List Char → Option String
  | [] => none
  | c :: rest =>
    match dropLit "namespace".data (c :: rest) with
    | some r1 =>
      (match dropWsPlus r1 with
       | some r2 =>
         let w := (takeRun (fun ch => isWordChar ch || ch == '.') r2).1
         if w.isEmpty then findNamespaceIn rest else some (String.mk w)
       | none => findNamespaceIn rest)
    | none => findNamespaceIn rest

/-- Model of `path.basename(filePath, .cs)`. -/
def csBasename (filePath : String) : String :=
  let base := ((pathSegs filePath).getLastD filePath)
  if strEndsWith base ".cs" then strDropRight base 3 else base

/-- csharp.ts `extractNamespaceAndClass`: the first declared namespace (empty
when none) and the file basename as the class name. -/
def extractNamespaceAndClass (content filePath : String) : String × String :=
  (((findNamespaceIn content.data).getD ""), csBasename filePath)

/-- csharp.ts `buildCSharpNamespaceCache` over in-memory contents. -/
def buildCSharpNamespaceCache (files : List (String × String)) :
    List (String × String × String) :=
  files.map (fun fc => (fc.1, extractNamespaceAndClass fc.2 fc.1))

/-- Parses one line against `^\s*using\s+([\w.]+)\s*;`. -/
def parseUsingLine (line : String) : Option String :=
  match dropLit "using".data (dropWs line.data) with
  | none => none
  | some rest =>
    match dropWsPlus rest with
    | none => none
    | some r2 =>
      let (w, r3) := takeRun (fun c => isWordChar c || c == '.') r2
      if w.isEmpty then none
      else
        match dropWs r3 with
        | ';' :: _ => some (String.mk w)
        | _ => none

/-- The framework-namespace skip of the C# analyzer. -/
def isFrameworkUsing (u : String) : Bool :=
  strStartsWith u "System" ||
  (strStartsWith u "Microsoft" && !(strContains u "eShopWeb")) ||
  strStartsWith u "Xunit" ||
  strStartsWith u "Moq"

/-- The using-statement set collected by `csharpAnalyzer.analyzeAll`. -/
def extractUsings (content : String) : List String :=
  (linesOf content).foldl
    (fun s l => match parseUsingLine l with
      | some u => if isFrameworkUsing u then s else addUnique s u
      | none => s) []

/-- csharp.ts `csharpUsingToFilePaths`: an exact `namespace.class` match
returns immediately; otherwise all files of the exactly-matching namespace. -/
def csharpUsingToFilePaths (cache : List (String × String × String))
    (usingStatement : String) : List String :=
  go cache []
where
  go : List (String × String × String) → List String → List String
  | [], found => found
  | (filePath, ns, cls) :: rest, found =>
    let fullName := if ns != "" then ns ++ "." ++ cls else cls
    if fullName == usingStatement then [filePath]
    else if ns == usingStatement then go rest (found ++ [filePath])
    else go rest found

/-- csharp.ts `csharpAnalyzer.analyzeAll` over in-memory contents. -/
def csharpAnalyzeAll (files : List (String × String)) :
    List (String × List (String × Nat)) :=
  let cache := buildCSharpNamespaceCache files
  files.foldl
    (fun acc fc =>
      let file := fc.1
      let content := fc.2
      let usings := extractUsings content
      let fileDeps := usings.foldl
        (fun m u =>
          (csharpUsingToFilePaths cache u).foldl
            (fun m2 dep =>
              if dep == file then m2
              else
                match (cache.find? (fun e => e.1 == dep)).map (fun e => e.2.2) with
                | none => m2
                | some cls =>
                  let n := wordCount cls content
                  if n > 0 then aset m2 dep n else m2) m) []
      if fileDeps.isEmpty then acc else aset acc file fileDeps) []

/-- The C# end-to-end scenario of the specification. -/
def csScenarioFiles : List (String × String) :=
  [("Core/Entities/Basket.cs",
    "namespace MyApp.Core.Entities; public class Basket \x7b\x7d"),
   ("Web/Controller.cs",
    "using MyApp.Core.Entities;\nclass C \x7b Basket b; Basket f() => new Basket(); \x7d")]

end CS

namespace Java

open Util

/-- Parses one line against the java import regex
`^\s*import\s+(?:static\s+)?([a-zA-Z_][\w.]*(?:\.\*)?)\s*;` (java.ts
`extractImports`).  The optional trailing `.*` arises by the regex giving one
dot back from the greedy word-dot run. -/
def javaParseImportLine (line : String) : Option String :=
  match dropLit "import".data (dropWs line.data) with
  | none => none
  | some rest =>
    match dropWsPlus rest with
    | none => none
    | some r2 =>
      let r3 := match dropLit "static".data r2 with
        | some afterStatic =>
          (match dropWsPlus afterStatic with
           | some r => r
           | none => r2)
        | none => r2
      match r3 with
      | [] => none
      | c0 :: r4 =>
        if c0.isAlpha || c0 == '_' then
          let (run, r5) := takeRun (fun c => isWordChar c || c == '.') r4
          let (capture, r6) :=
            match r5 with
            | '*' :: r7 =>
              if run.getLast? == some '.' then (c0 :: run ++ ['*'], r7)
              else (c0 :: run, r5)
            | _ => (c0 :: run, r5)
          match dropWs r6 with
          | ';' :: _ => some (String.mk capture)
          | _ => none
        else none

/-- java.ts `extractImports`: per-import-path occurrence counts, in first-seen
order (repeated identical imports sum). -/
def javaExtractImports (content : String) : List (String × Nat) :=
  (linesOf content).foldl
    (fun m l => match javaParseImportLine l with
      | some name => aset m name (((aget m name).getD 0) + 1)
      | none => m) []

/-- Stdlib roots excluded by `javaImportToFilePath`. -/
def externalRootsJava : List String :=
  ["java.", "javax.", "org.junit.", "org.mockito.",
   "org.apache.commons.", "org.apache.log4j."]

/-- java.ts `javaImportToFilePath`: suffix match on the dotted path converted
to a file path (the global dot-to-slash replace is a character map, as the
pattern is a single character), with a basename fallback. -/
def javaImportToFilePath (importPath : String) (allFiles : List String) :
    Option String :=
  if strEndsWith importPath ".*" then none
  else if externalRootsJava.any (fun p => strStartsWith importPath p) then none
  else
    let packagePath :=
      String.mk (importPath.data.map (fun c => if c == '.' then '/' else c)) ++
        ".java"
    match allFiles.find? (fun f => strEndsWith f packagePath) with
    | some f => some f
    | none =>
      let cls := ((splitChar '.' importPath.data).map
        (fun l => String.mk l)).getLastD ""
      if cls == "" then none
      else allFiles.find? (fun f => strEndsWith f ("/" ++ cls ++ ".java"))

/-- java.ts `javaAnalyzer.analyzeAll` over in-memory contents
(`INCLUDE_TESTS` is true in the source, so no file is filtered out). -/
def javaAnalyzeAll (files : List (String × String)) :
    List (String × List (String × Nat)) :=
  let names := files.map (fun fc => fc.1)
  let importCounts := files.foldl
    (fun acc fc =>
      let im := javaExtractImports fc.2
      if im.isEmpty then acc else aset acc fc.1 im) []
  files.foldl
    (fun acc fc =>
      match aget importCounts fc.1 with
      | none => acc
      | some fileCounts =>
        let depCountMap := fileCounts.foldl
          (fun m entry =>
            match javaImportToFilePath entry.1 names with
            | some r => aset m r entry.2
            | none => m) []
        if depCountMap.isEmpty then acc else aset acc fc.1 depCountMap) []

/-- Strip `//` line comments (java.ts `calculateComplexity`, first replace).
The flag records being inside a comment; newlines are kept, as the regex stops
at the line end. -/
def stripLC : Bool → List Char → List Char
  | false, [] => []
  | false, '/' :: '/' :: rest => stripLC true rest
  | false, c :: rest => c :: stripLC false rest
  | true, [] => []
  | true, '\n' :: rest => '\n' :: stripLC false rest
  | true, _ :: rest => stripLC true rest

/-- Strip lazy `/* ... */` block comments (second replace); an opener with no
later closer is left as-is, as the regex would not match it. -/
def stripBC : Bool → List Char → List Char
  | false, [] => []
  | false, '/' :: '*' :: rest =>
    if subScan ['*', '/'] rest then stripBC true rest
    else '/' :: '*' :: stripBC false rest
  | false, c :: rest => c :: stripBC false rest
  | true, [] => []
  | true, '*' :: '/' :: rest => stripBC false rest
  | true, _ :: rest => stripBC true rest

/-- The remainder after the closing quote of a string-literal body
`(?:[^q\\]|\\.)*q`, when such a closing quote exists; the flag records a
pending backslash escape. -/
def quotedEnd (q : Char) : Bool → List Char → Option (List Char)
  | _, [] => none
  | true, _ :: rest => quotedEnd q false rest
  | false, c :: rest =>
    if c == '\\' then quotedEnd q true rest
    else if c == q then some rest
    else quotedEnd q false rest

/-- Strip string literals for a given quote character; an opening quote with
no valid closer stays, and scanning resumes after it.  The first flag is the
in-string state, the second a pending backslash escape. -/
def stripQuoted (q : Char) : Bool → Bool → List Char → List Char
  | false, _, [] => []
  | false, esc, c :: rest =>
    if c == q then
      if (quotedEnd q false rest).isSome then stripQuoted q true false rest
      else c :: stripQuoted q false false rest
    else c :: stripQuoted q false false rest
  | true, false, [] => []
  | true, false, c :: rest =>
    if c == '\\' then stripQuoted q true true rest
    else if c == q then stripQuoted q false false rest
    else stripQuoted q true false rest
  | true, true, [] => []
  | true, true, _ :: rest => stripQuoted q true false rest

/-- The comment-and-string cleaning pipeline shared by the regex-based
complexity calculators. -/
def cleanSource (content : String) : List Char :=
  stripQuoted '\x27' false false
    (stripQuoted '"' false false (stripBC false (stripLC false content.data)))

/-- Occurrences of a keyword with a word boundary before it, followed by
`\s*` and the given trailing character (patterns such as the `if`-paren
decision points). -/
def kwTrailHits (kw : List Char) (trail : Char) :
    Option Char → List Char → Nat
  | prev, hay =>
    let boundaryOk := match prev with
      | none => true
      | some c => !isWordChar c
    let afterOk := match dropWs (hay.drop kw.length) with
      | c :: _ => c == trail
      | [] => false
    (if boundaryOk && leadMatch kw hay && afterOk then 1 else 0) +
      (match hay with
       | [] => 0
       | c :: rest => kwTrailHits kw trail (some c) rest)

/-- Occurrences of `\bcase\s+` (a keyword followed by at least one
whitespace). -/
def kwWsHits (kw : List Char) : Option Char → List Char → Nat
  | prev, hay =>
    let boundaryOk := match prev with
      | none => true
      | some c => !isWordChar c
    let afterOk := match hay.drop kw.length with
      | c :: _ => isWsChar c
      | [] => false
    (if boundaryOk && leadMatch kw hay && afterOk then 1 else 0) +
      (match hay with
       | [] => 0
       | c :: rest => kwWsHits kw (some c) rest)

/-- Non-overlapping occurrences of a two-character operator (`&&`, `||`),
scanning left to right as a global regex does. -/
def twoCharHits (a b : Char) : List Char → Nat
  | [] => 0
  | [_] => 0
  | c :: d :: rest =>
    if c == a && d == b then 1 + twoCharHits a b rest
    else twoCharHits a b (d :: rest)

/-- Non-overlapping matches of `\?[^:]*:` — each `?` that is followed by a
`:` later in the text consumes up to that `:`. -/
def ternaryHits (l : List Char) : Nat :=
  match l with
  | [] => 0
  | '?' :: rest =>
    if (rest.dropWhile (fun c => c != ':')).isEmpty then ternaryHits rest
    else 1 + ternaryHits ((rest.dropWhile (fun c => c != ':')).drop 1)
  | _ :: rest => ternaryHits rest
termination_by l.length
decreasing_by
  · simp only [List.length_cons]; omega
  · have h1 : ∀ (l2 : List Char),
        (l2.dropWhile (fun c => c != ':')).length ≤ l2.length := by
      intro l2
      induction l2 with
      | nil => simp
      | cons c r2 ih =>
        rw [List.dropWhile_cons]
        split
        · simp only [List.length_cons]; omega
        · simp
    have h1r := h1 rest
    have h2 := List.length_drop 1 (rest.dropWhile (fun c => c != ':'))
    simp only [List.length_cons]
    omega
  · simp only [List.length_cons]; omega

/-- java.ts `calculateComplexity`: 1 plus the decision-point counts over the
cleaned source. -/
def javaComplexityOf (content : String) : Nat :=
  let cleaned := cleanSource content
  1 + kwTrailHits "if".data '(' none cleaned
    + kwTrailHits "for".data '(' none cleaned
    + kwTrailHits "while".data '(' none cleaned
    + kwTrailHits "do".data '\x7b' none cleaned
    + kwWsHits "case".data none cleaned
    + kwTrailHits "catch".data '(' none cleaned
    + ternaryHits cleaned
    + twoCharHits '&' '&' cleaned
    + twoCharHits '|' '|' cleaned

/-- java.ts `calculateJavaComplexity`: reads the file and scores it; the
catch branch around the read returns 1, not 0.  The read outcome is the
`Option` argument. -/
def calculateJavaComplexity (readResult : Option String) : Nat :=
  match readResult with
  | none => 1
  | some content => javaComplexityOf content

end Java

namespace Repo

open Util

/-- `FileDependency` from types/dsm.ts: target path and edge weight (the
weight field is itself called `dependencies` in the source). -/
structure FileDependency where
  fileName : String
  dependencies : Nat
deriving DecidableEq, Repr

/-- `FileData` from types/dsm.ts as populated by `analyzeGitRepo`. -/
structure FileData where
  complexity : Nat
  lineCount : Nat
  dependencies : List FileDependency
deriving DecidableEq, Repr

/-- gitRepoAnalyzer.ts line count: non-blank lines. -/
def lineCountOf (content : String) : Nat :=
  ((linesOf content).filter (fun l => strTrim l != "")).length

/-- gitRepoAnalyzer.ts `MAX_FILES_FOR_DETAILED_ANALYSIS`. -/
def MAX_FILES_FOR_DETAILED_ANALYSIS : Nat := 100

/-- The per-language-group loop of `analyzeGitRepo` (lines 151-176), with the
analyzer invocation abstracted as a function.  Both branches of the
`skipDetailedAnalysis` conditional invoke `analyzer.analyzeAll(groupFiles,
tmpDir)` with identical arguments (they differ only in the error handler), and
the embedding mirrors that. -/
def computeAllDependencies
    (analyzeAllFn : List String → List (String × List (String × Nat)))
    (groups : List (List String)) (skipDetailedAnalysis : Bool) :
    List (String × List (String × Nat)) :=
  groups.foldl
    (fun acc group =>
      if skipDetailedAnalysis then
        (analyzeAllFn group).foldl (fun a e => aset a e.1 e.2) acc
      else
        (analyzeAllFn group).foldl (fun a e => aset a e.1 e.2) acc) []

/-- The per-file record construction of `analyzeGitRepo` (lines 182-233).
Each admitted file is paired with its read outcome; a failed read takes the
catch branch and yields complexity 0, line count 0 and no dependencies, while
a successful read converts the analyzer dependency map into the
`FileDependency` array in map insertion order.  The complexity dispatch is the
`calc` parameter (the JS branch calls an external parser). -/
def mkFileData (score : String → String → Nat)
    (files : List (String × Option String))
    (allDeps : List (String × List (String × Nat))) :
    List (String × FileData) :=
  files.map
    (fun fc =>
      match fc.2 with
      | none => (fc.1, ⟨0, 0, []⟩)
      | some content =>
        let depMap := (aget allDeps fc.1).getD []
        (fc.1,
         ⟨score fc.1 content, lineCountOf content,
          depMap.map (fun e => FileDependency.mk e.1 e.2)⟩))

/-- Is a dependency array sorted by its `file_name` field? -/
def sortedByFileName : List FileDependency → Bool
  | [] => true
  | [_] => true
  | a :: b :: rest =>
    strLexLe a.fileName b.fileName && sortedByFileName (b :: rest)

end Repo

namespace SSE

open Util

/-- The three frame kinds of the streaming endpoint. -/
inductive Frame where
  | progress (msg : String)
  | error (msg : String)
  | complete
deriving DecidableEq, Repr

/-- Is a frame terminal (error or complete)? -/
def Frame.isTerminal : Frame → Bool
  | .progress _ => false
  | .error _ => true
  | .complete => true

/-- One attempted send: which sender runs and whether the underlying
`controller.enqueue` succeeds (it throws once the client has gone away). -/
inductive Ev where
  | progress (msg : String) (enqueueOk : Bool)
  | error (msg : String) (enqueueOk : Bool)
  | complete (enqueueOk : Bool)

/-- The stream state: the `isClosed` flag of the route handler and the frames
enqueued so far. -/
structure StState where
  closed : Bool
  frames : List Frame

/-- The three sender closures of the route handler (part of `GET`):
each returns immediately when `isClosed` is set; `sendProgress` enqueues and
leaves the flag alone (setting it only when enqueue throws); `sendError` and
`sendComplete` set the flag on every path, enqueuing their frame exactly when
the enqueue succeeds. -/
def stepSend (s : StState) (e : Ev) : StState :=
  match e with
  | .progress m ok =>
    if s.closed then s
    else if ok then { s with frames := s.frames ++ [Frame.progress m] }
    else { s with closed := true }
  | .error m ok =>
    if s.closed then s
    else if ok then { closed := true, frames := s.frames ++ [Frame.error m] }
    else { closed := true, frames := s.frames }
  | .complete ok =>
    if s.closed then s
    else if ok then { closed := true, frames := s.frames ++ [Frame.complete] }
    else { closed := true, frames := s.frames }

/-- A whole run of the handler: any sequence of attempted sends from the
initial open state. -/
def runSends (evs : List Ev) : StState :=
  evs.foldl stepSend ⟨false, []⟩

/-- No frame of any kind follows a terminal frame (which also bounds the
number of terminal frames by one). -/
def noFrameAfterTerminal : List Frame → Bool
  | [] => true
  | f :: rest => if f.isTerminal then rest.isEmpty else noFrameAfterTerminal rest

/-- Frames that contain no terminal frame at all. -/
def terminalFree (l : List Frame) : Bool := l.all (fun f => !f.isTerminal)

end SSE

namespace Hier

open Util

mutual
/-- A node of the internal tree of `buildDisplayItems` (part of the analyze
route handler): path, display name, file flag, children map (insertion
ordered) and the set of covered file indices. -/
inductive TNode where
  | mk (path name : String) (isFile : Bool) (children : TForest)
      (fileIndices : List Nat)
/-- The insertion-ordered children map of a tree node. -/
inductive TForest where
  | nil
  | cons (name : String) (child : TNode) (rest : TForest)
end

def TNode.path : TNode → String
  | .mk p _ _ _ _ => p

def TNode.name : TNode → String
  | .mk _ n _ _ _ => n

def TNode.isFile : TNode → Bool
  | .mk _ _ f _ _ => f

def TNode.children : TNode → TForest
  | .mk _ _ _ cs _ => cs

def TNode.fileIndices : TNode → List Nat
  | .mk _ _ _ _ fi => fi

/-- `children.get(part)` on the forest. -/
def fGet (key : String) : TForest → Option TNode
  | .nil => none
  | .cons n c rest => if n == key then some c else fGet key rest

/-- `children.set(part, node)` on the forest. -/
def fSet (key : String) (t : TNode) : TForest → TForest
  | .nil => .cons key t .nil
  | .cons n c rest =>
    if n == key then .cons key t rest else .cons n c (fSet key t rest)

/-- One `fileList.forEach` iteration of `buildDisplayItems`: walk the split
path, adding the file index to every node along the way (including the root
and the leaf) and creating missing children with their joined path and a file
flag on the final segment. -/
def insertParts (node : TNode) (done : String) (parts : List String)
    (idx : Nat) : TNode :=
  match node, parts with
  | .mk p n f cs fi, [] => .mk p n f cs (addNat fi idx)
  | .mk p n f cs fi, part :: rest =>
    let childPath := if done == "" then part else done ++ "/" ++ part
    let child := match fGet part cs with
      | some c => c
      | none => .mk childPath part rest.isEmpty .nil []
    let child2 := insertParts child childPath rest idx
    .mk p n f (fSet part child2 cs) (addNat fi idx)

/-- The tree-building phase of `buildDisplayItems`. -/
def buildTree (fileList : List String) : TNode :=
  (fileList.enum).foldl
    (fun root e => insertParts root "" (pathSegs e.2) e.1)
    (.mk "" "" false .nil [])

/-- Code-point comparison of strings, modelling the `localeCompare` sibling
sort of the source on ASCII path names. -/
def strLe (a b : String) : Bool := strLexLe a b

/-- Insert into a name-sorted forest (sorting is stable; sibling names are
unique by construction). -/
def fInsertSorted (name : String) (t : TNode) : TForest → TForest
  | .nil => .cons name t .nil
  | .cons n c rest =>
    if strLe name n then .cons name t (.cons n c rest)
    else .cons n c (fInsertSorted name t rest)

mutual
/-- Recursively sort every children map by name.  The source sorts each
node's children at traversal time; since every node is traversed exactly once,
pre-sorting the tree is the same computation. -/
def sortTree : TNode → TNode
  | .mk p n f cs fi => .mk p n f (sortForest cs) fi

def sortForest : TForest → TForest
  | .nil => .nil
  | .cons n c rest => fInsertSorted n (sortTree c) (sortForest rest)
end

/-- `DisplayItem` as emitted by the route handler. -/
structure DisplayItem where
  path : String
  displayName : String
  indent : Nat
  isDirectory : Bool
  fileIndices : List Nat
  id : String
  showInMatrix : Bool
deriving DecidableEq, Repr

/-- Decimal digit character. -/
def digitCh (d : Nat) : Char := Char.ofNat (48 + d)

/-- Decimal digits of a number, with explicit fuel (the fuel `n + 1` always
suffices). -/
def natDigitsF : Nat → Nat → List Char
  | 0, _ => []
  | fuel + 1, n => if n < 10 then [digitCh n] else
      natDigitsF fuel (n / 10) ++ [digitCh (n % 10)]

/-- Decimal rendering of a sibling index, as the template literal of the
source produces. -/
def natToString (n : Nat) : String := String.mk (natDigitsF (n + 1) n)

/-- Outline id of the child at (1-based) sibling index `k` under `pid`. -/
def mkOutlineId (pid : String) (k : Nat) : String :=
  if pid == "" then natToString k else pid ++ "." ++ natToString k

mutual
/-- Emit the display item of one (already sorted) child and, when it is a
directory, its subtree with incremented indent. -/
def emitNode (c : TNode) (indent : Nat) (id : String) : List DisplayItem :=
  ⟨c.path, c.name, indent, !c.isFile, c.fileIndices, id, c.isFile⟩ ::
    (match c with
     | .mk _ _ f cs _ =>
       if f then [] else emitForest cs (indent + 1) id 1)

/-- Emit a (sorted) sibling list starting at sibling index `k`. -/
def emitForest (cs : TForest) (indent : Nat) (pid : String) (k : Nat) :
    List DisplayItem :=
  match cs with
  | .nil => []
  | .cons _ c rest =>
    emitNode c indent (mkOutlineId pid k) ++ emitForest rest indent pid (k + 1)
end

/-- The route handler's `buildDisplayItems`: build the tree from the file
list, then traverse it with name-sorted siblings from indent 0 and an empty
parent id. -/
def buildDisplayItems (fileList : List String) : List DisplayItem :=
  emitForest (sortTree (buildTree fileList)).children 0 "" 1

/-- Number of dots in an outline id. -/
def dotCount (s : String) : Nat := (s.data.filter (fun c => c == '.')).length

end Hier

namespace Repo

open Util

/-- All targets of a dependency map lie in the admitted file set and all
weights are at least 1. -/
def depEntrySound (files : List String) (dmap : List (String × Nat)) : Prop :=
  ∀ e ∈ dmap, e.1 ∈ files ∧ 1 ≤ e.2

/-- Analyzer-result soundness: every per-file dependency map is sound. -/
def depsSound (files : List String)
    (deps : List (String × List (String × Nat))) : Prop :=
  ∀ entry ∈ deps, depEntrySound files entry.2

instance (files : List String) (dmap : List (String × Nat)) :
    Decidable (depEntrySound files dmap) := by
  unfold depEntrySound; infer_instance

instance (files : List String) (deps : List (String × List (String × Nat))) :
    Decidable (depsSound files deps) := by
  unfold depsSound; infer_instance

/-- All weights of a dependency map are positive. -/
def valuesPos (r : List (String × Nat)) : Prop := ∀ e ∈ r, 1 ≤ e.2

/-- All inner weights of a per-file import-count map are positive. -/
def importCountsPos (r : List (String × List (String × Nat))) : Prop :=
  ∀ entry ∈ r, valuesPos entry.2

end Repo

namespace SSE

open Util

/-- The state invariant of the route handler: while the closed flag is down
no terminal frame has been enqueued; once it is up, nothing follows a
terminal frame. -/
def okState (s : StState) : Bool :=
  if s.closed then noFrameAfterTerminal s.frames else terminalFree s.frames

end SSE

namespace Hier

open Util

/-- Number of dots of the ids generated directly under parent id `pid`. -/
def dcChild (pid : String) : Nat := if pid == "" then 0 else dotCount pid + 1

end Hier

namespace JS

/-- javascript.ts `calculateComplexity`: the escomplex aggregate cyclomatic
score (an external parser, already an integer after `Math.round`) is the
argument; the catch branch around the analysis returns 0, success clamps the
score to at least 1. -/
def calculateComplexityJs (analysisResult : Option Int) : Int :=
  match analysisResult with
  | none => 0
  | some v => max 1 v

end JS

namespace Repo

open Util

/-- A 101-file Java repository: `Main.java` imports `p.A` twice, the other
100 files are empty.  Its admitted-file count exceeds the large-repo
threshold. -/
def javaBigRepo : List (String × String) :=
  ("Main.java", "import p.A;\nimport p.A;\n") :: ("p/A.java", "") ::
    (List.range 99).map (fun i => ("f/" ++ Nat.repr i ++ ".java", ""))

/-- The single language group of that repository (all files are Java). -/
def javaBigGroups : List (List String) := [javaBigRepo.map (fun fc => fc.1)]

/-- The analyzer invocation of `analyzeGitRepo` for a group: `analyzeAll`
reads each group file from the workspace. -/
def javaBigAnalyzeFn (group : List String) :
    List (String × List (String × Nat)) :=
  Java.javaAnalyzeAll
    (group.filterMap (fun nm => (aget javaBigRepo nm).map (fun c => (nm, c))))

/-- `totalFiles` of `analyzeGitRepo`: the summed group sizes. -/
def javaBigTotal : Nat := javaBigGroups.foldl (fun s g => s + g.length) 0

/-- The merged dependency map of the run, with `skipDetailedAnalysis`
computed exactly as in the source (`totalFiles > MAX_FILES_FOR_DETAILED_ANALYSIS`). -/
def javaBigDeps : List (String × List (String × Nat)) :=
  computeAllDependencies javaBigAnalyzeFn javaBigGroups
    (decide (javaBigTotal > MAX_FILES_FOR_DETAILED_ANALYSIS))

/-- The delivered records of the 101-file run (all reads succeed; the
complexity dispatch is irrelevant to the claim). -/
def javaBigPayload : List (String × FileData) :=
  mkFileData (fun _ _ => 1) (javaBigRepo.map (fun fc => (fc.1, some fc.2)))
    javaBigDeps

/-- A Java file whose two imports resolve in a non-alphabetical order. -/
def unsortedScenario : List (String × String) :=
  [("Main.java", "import z.B;\nimport a.A;\n"),
   ("z/B.java", ""), ("a/A.java", "")]

/-- The delivered records of the unsorted-import scenario. -/
def unsortedPayload : List (String × FileData) :=
  mkFileData (fun _ _ => 1)
    (unsortedScenario.map (fun fc => (fc.1, some fc.2)))
    (Java.javaAnalyzeAll unsortedScenario)

end Repo


namespace Util

theorem aget_aset_self (m : List (String × α)) (k : String) (v : α) :
    aget (aset m k v) k = some v := by
  induction m with
  | nil => simp [aset, aget]
  | cons p r ih =>
    obtain ⟨k2, v2⟩ := p
    by_cases h : k2 = k
    · simp [aset, aget, h]
    · simp [aset, aget, h, ih]

theorem aget_aset_ne (m : List (String × α)) (k k2 : String) (v : α)
    (h : k2 ≠ k) : aget (aset m k v) k2 = aget m k2 := by
  induction m with
  | nil => simp [aset, aget, Ne.symm h]
  | cons p r ih =>
    obtain ⟨k3, v3⟩ := p
    by_cases h2 : k3 = k
    · subst h2
      simp [aset, aget, h, Ne.symm h]
    · simp only [aset, beq_iff_eq, h2, if_false]
      by_cases h3 : k3 = k2
      · simp [aget, h3]
      · simp [aget, h3, ih]

/-- Every value in the result of `aset` is either an old value or the new one. -/
theorem aset_forall {P : String × α → Prop} (m : List (String × α)) (k : String)
    (v : α) (hm : ∀ p ∈ m, P p) (hv : P (k, v)) : ∀ p ∈ aset m k v, P p := by
  induction m with
  | nil => simpa [aset] using hv
  | cons q r ih =>
    obtain ⟨k2, v2⟩ := q
    intro p hp
    by_cases h : k2 = k
    · rw [aset, if_pos (by simp [h])] at hp
      rcases List.mem_cons.mp hp with h2 | h2
      · subst h2; exact hv
      · exact hm _ (List.mem_cons_of_mem _ h2)
    · rw [aset, if_neg (by simp [h])] at hp
      rcases List.mem_cons.mp hp with h2 | h2
      · subst h2; exact hm _ (List.mem_cons_self _ _)
      · exact ih (fun q hq => hm _ (List.mem_cons_of_mem _ hq)) _ h2

theorem lengthDropWhileLe {α : Type} (p : α → Bool) (l : List α) :
    (l.dropWhile p).length ≤ l.length := by
  induction l with
  | nil => simp
  | cons c rest ih =>
    rw [List.dropWhile_cons]
    split
    · simp only [List.length_cons]; omega
    · simp

/-- A successful `aget` returns a binding present in the list. -/
theorem aget_mem (m : List (String × α)) (k : String) (v : α)
    (h : aget m k = some v) : (k, v) ∈ m := by
  induction m with
  | nil => simp [aget] at h
  | cons p r ih =>
    obtain ⟨k2, v2⟩ := p
    by_cases h2 : k2 = k
    · subst h2
      simp only [aget, beq_iff_eq, if_true, if_pos rfl, Option.some.injEq] at h
      simp [h]
    · simp only [aget, beq_iff_eq, h2, if_false] at h
      exact List.mem_cons_of_mem _ (ih h)

end Util

namespace Filter

open Util Repo

theorem filterRepoFiles_mem (lines : List String) (f : String) :
    f ∈ filterRepoFiles lines ↔ f ∈ lines ∧ fileAdmitted f = true := by
  simp only [filterRepoFiles, fileAdmitted, List.mem_filter, Bool.and_eq_true]
  tauto

end Filter

namespace Repo

open Util

theorem mkFileData_keys (score : String → String → Nat)
    (files : List (String × Option String))
    (allDeps : List (String × List (String × Nat))) :
    (mkFileData score files allDeps).map (fun e => e.1) =
      files.map (fun e => e.1) := by
  induction files with
  | nil => rfl
  | cons fc rest ih =>
    obtain ⟨f, c⟩ := fc
    cases c with
    | none => simpa [mkFileData] using ih
    | some content => simpa [mkFileData] using ih

theorem mkFileData_dep_sound (score : String → String → Nat)
    (files : List (String × Option String))
    (allDeps : List (String × List (String × Nat)))
    (hs : depsSound (files.map (fun e => e.1)) allDeps) :
    ∀ e ∈ mkFileData score files allDeps, ∀ d ∈ e.2.dependencies,
      d.fileName ∈ files.map (fun e => e.1) ∧ 1 ≤ d.dependencies := by
  intro e he d hd
  simp only [mkFileData, List.mem_map] at he
  obtain ⟨⟨f, c⟩, hmem, hfe⟩ := he
  cases c with
  | none =>
    subst hfe
    simp at hd
  | some content =>
    subst hfe
    simp only at hd
    rcases hget : aget allDeps f with _ | dmap
    · rw [hget] at hd
      simp at hd
    · rw [hget] at hd
      simp only [Option.getD_some, List.mem_map] at hd
      obtain ⟨⟨t, w⟩, htw, hdw⟩ := hd
      have hsound := hs _ (aget_mem _ _ _ hget) _ htw
      subst hdw
      exact hsound

end Repo

namespace JS

open Util Repo

theorem processFileImports_values (clauses : List ImportClause) :
    ∀ e ∈ processFileImports clauses, 1 ≤ e.2 := by
  unfold processFileImports
  induction clauses using List.reverseRecOn with
  | nil => intro e he; simp at he
  | append_singleton rest c ih =>
    rw [List.foldl_append, List.foldl_cons, List.foldl_nil]
    apply aset_forall _ _ _ ih
    split
    · exact Nat.le_refl 1
    · rename_i hn
      simp only [beq_iff_eq] at hn
      omega

theorem findImportCount_pos (dep : String) (fileCounts : List (String × Nat))
    (hv : ∀ e ∈ fileCounts, 1 ≤ e.2) : 1 ≤ findImportCount dep fileCounts := by
  induction fileCounts with
  | nil => simp [findImportCount]
  | cons e rest ih =>
    obtain ⟨s, c⟩ := e
    rw [findImportCount]
    split
    · exact hv _ (List.mem_cons_self _ _)
    · exact ih (fun x hx => hv _ (List.mem_cons_of_mem _ hx))

theorem buildDependencyCountMap_sound (deps : List String)
    (files : List String) (repoPath : String)
    (fileCounts : List (String × Nat)) (hv : ∀ e ∈ fileCounts, 1 ≤ e.2) :
    depEntrySound files (buildDependencyCountMap deps files repoPath fileCounts) := by
  unfold buildDependencyCountMap
  apply List.foldlRecOn
  · intro e he; simp at he
  · intro m hm dep _
    rcases hmatch : matchDependencyToFile dep files repoPath with _ | f
    · exact hm
    · apply aset_forall _ _ _ hm
      refine ⟨List.mem_of_find?_eq_some hmatch, ?_⟩
      exact findImportCount_pos dep fileCounts hv

theorem jsAnalyzeAllCore_sound (files : List String) (repoPath : String)
    (madgeDeps : List (String × List String))
    (importDecls : List (String × List ImportClause)) :
    depsSound files (jsAnalyzeAllCore files repoPath madgeDeps importDecls) := by
  unfold jsAnalyzeAllCore
  apply List.foldlRecOn
  · intro e he; simp at he
  · intro acc hacc file _
    rcases findModulePathKey file madgeDeps repoPath with _ | key
    · exact hacc
    · simp only
      split
      · exact hacc
      · split
        · exact hacc
        · apply aset_forall _ _ _ hacc
          exact buildDependencyCountMap_sound _ _ _ _
            (processFileImports_values _)

theorem processFileImports_last_wins (clauses : List ImportClause)
    (s : String) :
    aget (processFileImports clauses) s =
      ((clauses.filter (fun c => c.source == s)).getLast?).map
        (fun c =>
          let n := countImportsInDeclaration c.specs
          if n == 0 then 1 else n) := by
  unfold processFileImports
  induction clauses using List.reverseRecOn with
  | nil => simp [aget]
  | append_singleton rest c ih =>
    rw [List.foldl_append, List.foldl_cons, List.foldl_nil,
      List.filter_append]
    by_cases h : c.source = s
    · have hone : List.filter (fun c2 => c2.source == s) [c] = [c] := by
        simp [h]
      rw [hone, List.getLast?_concat]
      subst h
      simpa using aget_aset_self _ _ _
    · have hone : List.filter (fun c2 => c2.source == s) [c] = [] := by
        simp [h]
      rw [hone, List.append_nil, ← ih]
      simpa using aget_aset_ne _ _ _ _ (Ne.symm h)

end JS

namespace Util

/-- Fold invariant with an explicit predicate. -/
theorem foldlInv {α β : Type} (P : β → Prop) (op : β → α → β) (l : List α)
    (init : β) (h0 : P init)
    (hstep : ∀ b a, a ∈ l → P b → P (op b a)) : P (l.foldl op init) := by
  induction l generalizing init with
  | nil => exact h0
  | cons a rest ih =>
    rw [List.foldl_cons]
    exact ih _ (hstep init a (List.mem_cons_self _ _) h0)
      (fun b x hx hb => hstep b x (List.mem_cons_of_mem _ hx) hb)

end Util

namespace Py

open Util Repo

theorem pythonImportToFilePaths_subset
    (cache : List (String × String × List String)) (im : String)
    (fm : Option String) (cf : Option String) :
    ∀ x ∈ pythonImportToFilePaths cache im fm cf,
      x ∈ cache.map (fun e => e.1) := by
  unfold pythonImportToFilePaths
  apply foldlInv (fun r => ∀ x ∈ r, x ∈ cache.map (fun e => e.1))
  · intro x hx; simp at hx
  · intro acc entry hmem hacc
    have happ : ∀ x ∈ acc ++ [entry.1], x ∈ cache.map (fun e => e.1) := by
      intro x hx
      rcases List.mem_append.mp hx with hx | hx
      · exact hacc x hx
      · simp only [List.mem_singleton] at hx
        subst hx
        exact List.mem_map_of_mem _ hmem
    simp only
    repeat' split
    all_goals first | exact hacc | exact happ

theorem addCount_sound (S : List String) (m : List (String × Nat))
    (k : String) (c : Nat) (hm : depEntrySound S m) (hk : k ∈ S)
    (hc : 1 ≤ c) : depEntrySound S (addCount m k c) := by
  unfold addCount
  apply aset_forall _ _ _ hm
  exact ⟨hk, by omega⟩

theorem buildPythonModuleCache_keys (files : List (String × String)) :
    (buildPythonModuleCache files).map (fun e => e.1) =
      files.map (fun e => e.1) := by
  simp [buildPythonModuleCache, List.map_map]

theorem pythonAnalyzeAll_sound (files : List (String × String)) :
    depsSound (files.map (fun e => e.1)) (pythonAnalyzeAll files) := by
  unfold pythonAnalyzeAll
  apply List.foldlRecOn
  · intro e he; simp at he
  · intro acc hacc fc _
    simp only
    have hsub : ∀ (im : String) (fm cf : Option String),
        ∀ x ∈ pythonImportToFilePaths (buildPythonModuleCache files) im fm cf,
          x ∈ files.map (fun e => e.1) := by
      intro im fm cf x hx
      have := pythonImportToFilePaths_subset (buildPythonModuleCache files)
        im fm cf x hx
      rwa [buildPythonModuleCache_keys] at this
    have h1 : depEntrySound (files.map (fun e => e.1))
        ((pyExtractImports fc.2).1.foldl
          (fun m im =>
            (pythonImportToFilePaths (buildPythonModuleCache files) im none
              (some fc.1)).foldl (fun m2 dep => addCount m2 dep 1) m) []) := by
      apply List.foldlRecOn
      · intro e he; simp at he
      · intro m hm im _
        apply List.foldlRecOn
        · exact hm
        · intro m2 hm2 dep hdep
          exact addCount_sound _ _ _ _ hm2 (hsub _ _ _ _ hdep) (by omega)
    have h2 : depEntrySound (files.map (fun e => e.1))
        ((pyExtractImports fc.2).2.foldl
          (fun m entry =>
            entry.2.foldl
              (fun m2 sym =>
                if sym == "*" then
                  (pythonImportToFilePaths (buildPythonModuleCache files) sym
                    (some entry.1) (some fc.1)).foldl
                    (fun m3 dep => addCount m3 dep 1) m2
                else
                  (pythonImportToFilePaths (buildPythonModuleCache files) sym
                    (some entry.1) (some fc.1)).foldl
                    (fun m3 dep =>
                      let n := pyCountSymbolUses sym fc.2
                      if n > 0 then addCount m3 dep n else m3) m2) m)
          ((pyExtractImports fc.2).1.foldl
            (fun m im =>
              (pythonImportToFilePaths (buildPythonModuleCache files) im none
                (some fc.1)).foldl (fun m2 dep => addCount m2 dep 1) m) [])) := by
      apply List.foldlRecOn
      · exact h1
      · intro m hm entry _
        apply List.foldlRecOn
        · exact hm
        · intro m2 hm2 sym _
          split
          · apply List.foldlRecOn
            · exact hm2
            · intro m3 hm3 dep hdep
              exact addCount_sound _ _ _ _ hm3 (hsub _ _ _ _ hdep) (by omega)
          · apply List.foldlRecOn
            · exact hm2
            · intro m3 hm3 dep hdep
              simp only
              split
              · rename_i hn
                exact addCount_sound _ _ _ _ hm3 (hsub _ _ _ _ hdep) (by omega)
              · exact hm3
    split
    · exact hacc
    · exact aset_forall _ _ _ hacc h2

end Py

namespace Java

open Util Repo

theorem javaExtractImports_values (content : String) :
    valuesPos (javaExtractImports content) := by
  unfold javaExtractImports
  apply foldlInv valuesPos
  · intro e he; simp at he
  · intro m l _ hm
    rcases javaParseImportLine l with _ | name
    · exact hm
    · exact aset_forall _ _ _ hm (by omega)

theorem javaImportToFilePath_mem (importPath : String)
    (allFiles : List String) (r : String)
    (h : javaImportToFilePath importPath allFiles = some r) : r ∈ allFiles := by
  unfold javaImportToFilePath at h
  split at h
  · cases h
  · split at h
    · cases h
    · dsimp only at h
      split at h
      · rename_i f heq
        cases h
        exact List.mem_of_find?_eq_some heq
      · split at h
        · cases h
        · exact List.mem_of_find?_eq_some h

theorem javaAnalyzeAll_sound (files : List (String × String)) :
    depsSound (files.map (fun e => e.1)) (javaAnalyzeAll files) := by
  unfold javaAnalyzeAll
  have himp : importCountsPos (files.foldl
      (fun acc fc =>
        let im := javaExtractImports fc.2
        if im.isEmpty then acc else aset acc fc.1 im) []) := by
    apply foldlInv importCountsPos
    · intro entry he; simp at he
    · intro acc fc _ hacc
      simp only
      split
      · exact hacc
      · exact aset_forall _ _ _ hacc (javaExtractImports_values _)
  apply foldlInv
    (fun r => depsSound (files.map (fun e => e.1)) r)
  · intro entry he; simp at he
  · intro acc fc _ hacc
    simp only
    split
    · exact hacc
    · next fileCounts hg =>
      have hvals : valuesPos fileCounts := himp _ (aget_mem _ _ _ hg)
      have hdeps : depEntrySound (files.map (fun fc => fc.1))
          (fileCounts.foldl
            (fun m entry =>
              match javaImportToFilePath entry.1 (files.map (fun fc => fc.1)) with
              | some r => aset m r entry.2
              | none => m) []) := by
        apply foldlInv
          (fun r => depEntrySound (files.map (fun fc => fc.1)) r)
        · intro e he; simp at he
        · intro m entry hmem hm
          split
          · next r hr =>
            exact aset_forall _ _ _ hm
              ⟨javaImportToFilePath_mem _ _ _ hr, hvals entry hmem⟩
          · exact hm
      split
      · exact hacc
      · exact aset_forall _ _ _ hacc hdeps

end Java

namespace CS

open Util Repo

theorem csharpUsingToFilePaths_go_subset (u : String)
    (keys : List String) :
    ∀ (entries : List (String × String × String)) (found : List String),
    (∀ x ∈ found, x ∈ keys) → (∀ e ∈ entries, e.1 ∈ keys) →
    ∀ x ∈ csharpUsingToFilePaths.go u entries found, x ∈ keys := by
  intro entries
  induction entries with
  | nil =>
    intro found hf _ x hx
    rw [csharpUsingToFilePaths.go] at hx
    exact hf x hx
  | cons e rest ih =>
    obtain ⟨fp, ns, cls⟩ := e
    intro found hf he x hx
    rw [csharpUsingToFilePaths.go] at hx
    revert hx
    generalize (if (ns != "") = true then ns ++ "." ++ cls else cls) = fn
    intro hx
    split at hx
    · simp only [List.mem_singleton] at hx
      subst hx
      exact he _ (List.mem_cons_self _ _)
    · split at hx
      · refine ih _ ?_ (fun e2 h2 => he _ (List.mem_cons_of_mem _ h2)) x hx
        intro y hy
        rcases List.mem_append.mp hy with hy | hy
        · exact hf y hy
        · simp only [List.mem_singleton] at hy
          subst hy
          exact he _ (List.mem_cons_self _ _)
      · exact ih _ hf (fun e2 h2 => he _ (List.mem_cons_of_mem _ h2)) x hx

theorem buildCSharpNamespaceCache_keys (files : List (String × String)) :
    (buildCSharpNamespaceCache files).map (fun e => e.1) =
      files.map (fun e => e.1) := by
  simp [buildCSharpNamespaceCache, List.map_map]

theorem csharpAnalyzeAll_sound (files : List (String × String)) :
    depsSound (files.map (fun e => e.1)) (csharpAnalyzeAll files) := by
  unfold csharpAnalyzeAll
  have hsub : ∀ (u : String),
      ∀ x ∈ csharpUsingToFilePaths (buildCSharpNamespaceCache files) u,
        x ∈ files.map (fun e => e.1) := by
    intro u x hx
    unfold csharpUsingToFilePaths at hx
    refine csharpUsingToFilePaths_go_subset u _ _ _ (by simp) ?_ x hx
    intro e he
    rw [← buildCSharpNamespaceCache_keys files]
    exact List.mem_map_of_mem _ he
  apply foldlInv (fun r => depsSound (files.map (fun e => e.1)) r)
  · intro e he; simp at he
  · intro acc fc _ hacc
    simp only
    have hdeps : depEntrySound (files.map (fun e => e.1))
        ((extractUsings fc.2).foldl
          (fun m u =>
            (csharpUsingToFilePaths (buildCSharpNamespaceCache files) u).foldl
              (fun m2 dep =>
                if dep == fc.1 then m2
                else
                  match ((buildCSharpNamespaceCache files).find?
                    (fun e => e.1 == dep)).map (fun e => e.2.2) with
                  | none => m2
                  | some cls =>
                    let n := wordCount cls fc.2
                    if n > 0 then aset m2 dep n else m2) m) []) := by
      apply foldlInv (fun r => depEntrySound (files.map (fun e => e.1)) r)
      · intro e he; simp at he
      · intro m u _ hm
        apply foldlInv (fun r => depEntrySound (files.map (fun e => e.1)) r)
        · exact hm
        · intro m2 dep hdep hm2
          split
          · exact hm2
          · split
            · exact hm2
            · simp only
              split
              · rename_i hn
                exact aset_forall _ _ _ hm2 ⟨hsub _ _ hdep, by omega⟩
              · exact hm2
    split
    · exact hacc
    · exact aset_forall _ _ _ hacc hdeps

end CS

namespace SSE

open Util Repo

theorem terminalFree_noFrameAfter (l : List Frame)
    (h : terminalFree l = true) : noFrameAfterTerminal l = true := by
  induction l with
  | nil => rfl
  | cons f rest ih =>
    simp only [terminalFree, List.all_cons, Bool.and_eq_true,
      Bool.not_eq_true'] at h
    simp only [noFrameAfterTerminal, h.1, if_neg]
    exact ih (by simp [terminalFree, h.2])

theorem terminalFree_append_nonterminal (l : List Frame) (f : Frame)
    (hl : terminalFree l = true) (hf : f.isTerminal = false) :
    terminalFree (l ++ [f]) = true := by
  simp only [terminalFree, List.all_append, List.all_cons, List.all_nil,
    Bool.and_eq_true] at hl ⊢
  simp [hl, hf]

theorem terminalFree_append_terminal (l : List Frame) (f : Frame)
    (hl : terminalFree l = true) :
    noFrameAfterTerminal (l ++ [f]) = true := by
  induction l with
  | nil =>
    simp only [List.nil_append, noFrameAfterTerminal]
    split
    · rfl
    · rfl
  | cons g rest ih =>
    simp only [terminalFree, List.all_cons, Bool.and_eq_true,
      Bool.not_eq_true'] at hl
    simp only [List.cons_append, noFrameAfterTerminal, hl.1, if_neg]
    exact ih (by simp [terminalFree, hl.2])

theorem stepSend_ok (s : StState) (e : Ev) (h : okState s = true) :
    okState (stepSend s e) = true := by
  rcases s with ⟨closed, frames⟩
  cases closed with
  | true =>
    have hstep : stepSend ⟨true, frames⟩ e = ⟨true, frames⟩ := by
      cases e <;> simp [stepSend]
    rw [hstep]
    exact h
  | false =>
    simp only [okState, if_neg Bool.false_ne_true] at h
    cases e with
    | progress m ok =>
      cases ok with
      | true =>
        simpa [stepSend, okState] using
          terminalFree_append_nonterminal frames (Frame.progress m) h rfl
      | false => simpa [stepSend, okState] using terminalFree_noFrameAfter _ h
    | error m ok =>
      cases ok with
      | true =>
        simpa [stepSend, okState] using
          terminalFree_append_terminal frames (Frame.error m) h
      | false => simpa [stepSend, okState] using terminalFree_noFrameAfter _ h
    | complete ok =>
      cases ok with
      | true =>
        simpa [stepSend, okState] using
          terminalFree_append_terminal frames Frame.complete h
      | false => simpa [stepSend, okState] using terminalFree_noFrameAfter _ h

theorem runSends_ok (evs : List Ev) : okState (runSends evs) = true := by
  unfold runSends
  apply foldlInv (fun s => okState s = true)
  · rfl
  · intro s e _ hs
    exact stepSend_ok s e hs

end SSE

namespace Hier

open Util Repo

theorem digitCh_ne_dot (d : Nat) (hd : d < 10) : digitCh d ≠ '.' := by
  interval_cases d <;> decide

theorem natDigitsF_no_dot (fuel : Nat) :
    ∀ (n : Nat), ∀ c ∈ natDigitsF fuel n, c ≠ '.' := by
  induction fuel with
  | zero => intro n c hc; simp [natDigitsF] at hc
  | succ fuel ih =>
    intro n c hc
    rw [natDigitsF] at hc
    split at hc
    · rename_i hn
      simp only [List.mem_singleton] at hc
      subst hc
      exact digitCh_ne_dot n hn
    · rcases List.mem_append.mp hc with hc | hc
      · exact ih _ c hc
      · simp only [List.mem_singleton] at hc
        subst hc
        exact digitCh_ne_dot _ (Nat.mod_lt _ (by norm_num))

theorem dotCount_natToString (k : Nat) : dotCount (natToString k) = 0 := by
  unfold dotCount natToString
  rw [List.length_eq_zero]
  rw [List.filter_eq_nil]
  intro c hc
  simpa using natDigitsF_no_dot (k + 1) k c hc

theorem natToString_ne_empty (k : Nat) : natToString k ≠ "" := by
  unfold natToString natDigitsF
  split
  · intro h
    have := congrArg String.data h
    simp at this
  · intro h
    have := congrArg String.data h
    simp at this

theorem dotCount_append (a b : String) :
    dotCount (a ++ b) = dotCount a + dotCount b := by
  unfold dotCount
  rw [String.data_append, List.filter_append, List.length_append]

theorem dotCount_mkOutlineId (pid : String) (k : Nat) :
    dotCount (mkOutlineId pid k) = dcChild pid := by
  unfold mkOutlineId dcChild
  split
  · exact dotCount_natToString k
  · rw [dotCount_append, dotCount_append, dotCount_natToString]
    have hdot : dotCount "." = 1 := by decide
    omega

theorem mkOutlineId_ne_empty (pid : String) (k : Nat) :
    mkOutlineId pid k ≠ "" := by
  unfold mkOutlineId
  split
  · exact natToString_ne_empty k
  · intro h
    have := congrArg String.length h
    rw [String.length_append, String.length_append] at this
    have h1 : String.length "." = 1 := by decide
    have h2 : String.length "" = 0 := by decide
    omega

mutual
theorem emitNode_dots (c : TNode) (indent : Nat) (id : String)
    (hne : id ≠ "") :
    ∀ it ∈ emitNode c indent id,
      it.indent + dotCount id = dotCount it.id + indent := by
  rcases c with ⟨p, n, f, cs, fi⟩
  intro it hit
  rw [emitNode] at hit
  rcases List.mem_cons.mp hit with h | h
  · subst h
    show indent + dotCount id = dotCount id + indent
    omega
  · have h2 : it ∈ (if f then ([] : List DisplayItem)
        else emitForest cs (indent + 1) id 1) := h
    clear h
    split at h2
    · simp at h2
    · have hrec := emitForest_dots cs (indent + 1) id 1 it h2
      have hdc : dcChild id = dotCount id + 1 := by
        unfold dcChild
        rw [if_neg (by simpa using hne)]
      omega

theorem emitForest_dots (cs : TForest) (indent : Nat) (pid : String)
    (k : Nat) :
    ∀ it ∈ emitForest cs indent pid k,
      it.indent + dcChild pid = dotCount it.id + indent := by
  match cs with
  | .nil =>
    intro it hit
    rw [emitForest] at hit
    cases hit
  | .cons n c rest =>
    intro it hit
    rw [emitForest] at hit
    rcases List.mem_append.mp hit with h | h
    · have := emitNode_dots c indent (mkOutlineId pid k)
        (mkOutlineId_ne_empty pid k) it h
      rw [dotCount_mkOutlineId] at this
      omega
    · exact emitForest_dots rest indent pid (k + 1) it h
end

theorem buildDisplayItems_dots (fileList : List String) :
    ∀ it ∈ buildDisplayItems fileList, dotCount it.id = it.indent := by
  intro it hit
  unfold buildDisplayItems at hit
  have := emitForest_dots (sortTree (buildTree fileList)).children 0 "" 1 it hit
  have hdc : dcChild "" = 0 := by decide
  omega

end Hier

namespace Claims

open Util Filter JS Py CS Java Repo SSE Hier

/-- C1 counterexample: on the specification's own end-to-end scenario
(`a.ts` holding two import clauses for `./b`, resolved by madge to `b.ts`),
the analyzer of javascript.ts produces the edge `a.ts -> b.ts` with weight 1,
not 3: `makeOnAfterFile` overwrites the per-specifier count instead of
summing (`fileCounts.set(specifier, count || 1)`). -/
theorem claim_C1_counterexample :
    jsAnalyzeAllCore scenarioFiles "/tmp/repo" scenarioMadgeDeps
      scenarioImportDecls = [("a.ts", [("b.ts", 1)])] ∧ (1 : Nat) ≠ 3 :=
  ⟨by decide, by decide⟩

/-- C1 (amended): when several import clauses share a specifier, the LAST
clause wins — the stored weight for a specifier is the last clause's counted
specifiers (1 for a side-effect clause) — and consequently the scenario edge
`a.ts -> b.ts` carries weight 1 (the final `import z from ./b` clause),
not the sum 3. -/
theorem claim_C1_overwrite_semantics :
    (∀ (clauses : List ImportClause) (s : String),
      aget (processFileImports clauses) s =
        ((clauses.filter (fun c => c.source == s)).getLast?).map
          (fun c =>
            let n := countImportsInDeclaration c.specs
            if n == 0 then 1 else n)) ∧
    jsAnalyzeAllCore scenarioFiles "/tmp/repo" scenarioMadgeDeps
      scenarioImportDecls = [("a.ts", [("b.ts", 1)])] :=
  ⟨processFileImports_last_wins, by decide⟩

/-- C2 counterexample: on the specification's python scenario
(`app.py` holding a wildcard import of `pkg.m`, whose symbols `Foo` and `bar`
occur three times in `app.py`), the python analyzer emits the edge
`app.py -> pkg/m.py` with weight 1, not 3: its wildcard branch adds a flat 1
per resolved target and never counts symbol occurrences. -/
theorem claim_C2_counterexample :
    pythonAnalyzeAll pyScenarioFiles = [("app.py", [("pkg/m.py", 1)])] ∧
      (1 : Nat) ≠ 3 :=
  ⟨by decide, by decide⟩

/-- C2 (amended): the occurrence-counting rule holds for the C# analyzer
(namespace `using`: weight = whole-word occurrences of the target's class
name, witness the C# scenario's weight 3), but the python analyzer gives a
wildcard import the fixed weight 1 per resolved target, so the python
scenario's edge `app.py -> pkg/m.py` has weight 1. -/
theorem claim_C2_wildcard_weights :
    pythonAnalyzeAll pyScenarioFiles = [("app.py", [("pkg/m.py", 1)])] ∧
    csharpAnalyzeAll csScenarioFiles =
      [("Web/Controller.cs", [("Core/Entities/Basket.cs", 3)])] :=
  ⟨by decide, by decide⟩

/-- C3 counterexample: a 101-file Java repository exceeds the threshold
(`skipDetailedAnalysis` is true), yet the delivered edge
`Main.java -> p/A.java` has weight 2, not 1 — the fast path does not skip
symbol counting, because both branches of the conditional invoke
`analyzer.analyzeAll` identically. -/
theorem claim_C3_counterexample :
    decide (javaBigTotal > MAX_FILES_FOR_DETAILED_ANALYSIS) = true ∧
    (aget javaBigPayload "Main.java").map (fun r => r.dependencies) =
      some [⟨"p/A.java", 2⟩] ∧ (2 : Nat) ≠ 1 :=
  ⟨by decide, by decide, by decide⟩

/-- C3 (amended): the large-repo flag has no effect on the delivered
dependency maps — the two branches of `analyzeGitRepo` perform the same
analyzer invocation and merge (they differ only in the error handler), so
weights are identical with and without the flag. -/
theorem claim_C3_flag_no_effect
    (analyzeAllFn : List String → List (String × List (String × Nat)))
    (groups : List (List String)) :
    computeAllDependencies analyzeAllFn groups true =
      computeAllDependencies analyzeAllFn groups false := rfl

/-- C4: the delivered payload's invariants.  (1) For any analyzer results
whose targets lie in the admitted file list with weights at least 1, the
record keys of the payload are exactly the admitted files (hence
`file_list = Object.keys(files)` covers every admitted file), and every
dependency entry of every record names a payload key and carries an integer
weight at least 1.  (2)-(5): the embedded JS, python, Java and C# analyzers
all satisfy that soundness property. -/
theorem claim_C4_payload_invariants :
    (∀ (score : String → String → Nat)
       (files : List (String × Option String))
       (deps : List (String × List (String × Nat))),
      depsSound (files.map (fun e => e.1)) deps →
        ((mkFileData score files deps).map (fun e => e.1) =
            files.map (fun e => e.1) ∧
         ∀ e ∈ mkFileData score files deps, ∀ d ∈ e.2.dependencies,
           d.fileName ∈ (mkFileData score files deps).map (fun e2 => e2.1) ∧
           1 ≤ d.dependencies)) ∧
    (∀ (files : List String) (repoPath : String)
       (madgeDeps : List (String × List String))
       (importDecls : List (String × List ImportClause)),
      depsSound files (jsAnalyzeAllCore files repoPath madgeDeps importDecls)) ∧
    (∀ files : List (String × String),
      depsSound (files.map (fun e => e.1)) (pythonAnalyzeAll files)) ∧
    (∀ files : List (String × String),
      depsSound (files.map (fun e => e.1)) (javaAnalyzeAll files)) ∧
    (∀ files : List (String × String),
      depsSound (files.map (fun e => e.1)) (csharpAnalyzeAll files)) := by
  refine ⟨?_, jsAnalyzeAllCore_sound, pythonAnalyzeAll_sound,
    javaAnalyzeAll_sound, csharpAnalyzeAll_sound⟩
  intro score files deps hs
  refine ⟨mkFileData_keys score files deps, ?_⟩
  intro e he d hd
  have := mkFileData_dep_sound score files deps hs e he d hd
  rw [mkFileData_keys]
  exact this

/-- C4 witness: the payload invariant applied to a concrete one-file payload
with a sound dependency map. -/
theorem claim_C4_witness :
    depsSound (([("a.ts", some "const x = 1")] :
        List (String × Option String)).map (fun e => e.1))
      [("a.ts", [("a.ts", 1)])] ∧
    ((mkFileData (fun _ _ => 0) [("a.ts", some "const x = 1")]
        [("a.ts", [("a.ts", 1)])]).map (fun e => e.1) =
      ([("a.ts", some "const x = 1")] :
        List (String × Option String)).map (fun e => e.1) ∧
     ∀ e ∈ mkFileData (fun _ _ => 0) [("a.ts", some "const x = 1")]
        [("a.ts", [("a.ts", 1)])], ∀ d ∈ e.2.dependencies,
       d.fileName ∈ (mkFileData (fun _ _ => 0) [("a.ts", some "const x = 1")]
          [("a.ts", [("a.ts", 1)])]).map (fun e2 => e2.1) ∧
       1 ≤ d.dependencies) :=
  ⟨by decide,
   claim_C4_payload_invariants.1 (fun _ _ => 0) [("a.ts", some "const x = 1")]
     [("a.ts", [("a.ts", 1)])] (by decide)⟩

/-- C5: evaluating the Java analyzer at the failing input — the file
`p/A.java` importing its own fully-qualified class `p.A` — yields a
self-edge `p/A.java -> p/A.java` of weight 1: `javaImportToFilePath` and the
surrounding `analyzeAll` loop have no self-import check, unlike every other
language analyzer in the source. -/
theorem claim_C5_java_self_edge :
    javaAnalyzeAll [("p/A.java", "import p.A;\n")] =
      [("p/A.java", [("p/A.java", 1)])] := by decide

/-- C6: the hierarchy builder.  (1) For every flat file list, every emitted
display item's outline id has exactly `indent + 1` dotted components (dot
count equals the indent), which pins the dotted-decimal id scheme to the
pre-order depth.  (2) The specification's example list produces exactly the
claimed items: ids 1, 1.1, 1.2, 2, 2.1 with directory flags
true/false/false/true/false and indents 0/1/1/0/1, each directory emitted
before its children and siblings in sorted order. -/
theorem claim_C6_hierarchy :
    (∀ fileList : List String,
      (buildDisplayItems fileList).all
        (fun it => dotCount it.id == it.indent) = true) ∧
    buildDisplayItems ["a/x.ts", "a/y.ts", "b/z.ts"] =
      [⟨"a", "a", 0, true, [0, 1], "1", false⟩,
       ⟨"a/x.ts", "x.ts", 1, false, [0], "1.1", true⟩,
       ⟨"a/y.ts", "y.ts", 1, false, [1], "1.2", true⟩,
       ⟨"b", "b", 0, true, [2], "2", false⟩,
       ⟨"b/z.ts", "z.ts", 1, false, [2], "2.1", true⟩] := by
  constructor
  · intro fileList
    rw [List.all_eq_true]
    intro it hit
    simpa using buildDisplayItems_dots fileList it hit
  · decide

/-- C7 counterexample: the path `my_vendor/a.ts` has no path segment in the
deny-list (its segments are `my_vendor` and `a.ts`), so the claimed
segment-based filter admits it; the code's substring test
(`file.includes("vendor/")`) rejects it. -/
theorem claim_C7_counterexample :
    specSegmentAdmitted "my_vendor/a.ts" = true ∧
    fileAdmitted "my_vendor/a.ts" = false :=
  ⟨by decide, by decide⟩

/-- C7 (amended): a tracked file is admitted if and only if it is non-blank,
some allow-listed extension is a suffix of its path, and no deny-list marker
(directory name followed by a slash) occurs anywhere in the path as a
substring — a strictly stronger rejection than path-segment matching. -/
theorem claim_C7_filter_characterisation :
    (∀ f : String,
      fileAdmitted f = true ↔
        (strTrim f ≠ "" ∧
         (∃ e ∈ CODE_EXTENSIONS, strEndsWith f e = true) ∧
         ∀ d ∈ EXCLUDED_DIRS, strContains f d = false)) ∧
    (∀ (lines : List String) (f : String),
      f ∈ filterRepoFiles lines ↔ f ∈ lines ∧ fileAdmitted f = true) := by
  constructor
  · intro f
    simp only [fileAdmitted, Bool.and_eq_true, Bool.not_eq_true',
      List.any_eq_true, List.any_eq_false, bne_iff_ne, ne_eq]
    constructor
    · rintro ⟨⟨h1, h2⟩, h3⟩
      exact ⟨h1, h3, fun d hd => by simpa using h2 d hd⟩
    · rintro ⟨h1, h3, h2⟩
      exact ⟨⟨h1, fun d hd => by simpa using h2 d hd⟩, h3⟩
  · exact filterRepoFiles_mem

/-- C8 counterexample: Java's complexity calculator
(`calculateJavaComplexity`) returns 1, not 0, when the file read fails —
its catch branch is `return 1`. -/
theorem claim_C8_counterexample :
    calculateJavaComplexity none = 1 ∧ (1 : Nat) ≠ 0 :=
  ⟨by decide, by decide⟩

/-- C8 (amended): when the aggregator's per-file read fails, the file still
appears in the payload with complexity 0, line count 0 and no outgoing
edges; the JS calculator returns 0 on parse failure and is never negative;
but Java's calculator returns 1 (not 0) on a read failure. -/
theorem claim_C8_failure_handling :
    (∀ (score : String → String → Nat)
       (files : List (String × Option String))
       (deps : List (String × List (String × Nat))) (f : String),
      aget files f = some none →
        aget (mkFileData score files deps) f = some ⟨0, 0, []⟩) ∧
    (calculateComplexityJs none = 0 ∧
     ∀ r : Option Int, 0 ≤ calculateComplexityJs r) ∧
    calculateJavaComplexity none = 1 := by
  refine ⟨?_, ⟨rfl, ?_⟩, rfl⟩
  · intro score files deps f h
    induction files with
    | nil => simp [aget] at h
    | cons fc rest ih =>
      obtain ⟨f2, c2⟩ := fc
      rw [aget] at h
      by_cases hf : f2 = f
      · rw [if_pos (by simp [hf])] at h
        have hc : c2 = none := by simpa using h
        subst hc
        subst hf
        simp [mkFileData, aget]
      · rw [if_neg (by simp [hf])] at h
        have hrec := ih h
        cases c2 with
        | none =>
          simpa [mkFileData, aget, hf] using hrec
        | some content =>
          simpa [mkFileData, aget, hf] using hrec
  · intro r
    cases r with
    | none => simp [calculateComplexityJs]
    | some v =>
      simp only [calculateComplexityJs]
      omega

/-- C8 witness: the failure-handling clause applied to a concrete
unreadable file. -/
theorem claim_C8_witness :
    aget ([("x.py", none)] : List (String × Option String)) "x.py" =
      some none ∧
    aget (mkFileData (fun _ _ => 0) [("x.py", none)] []) "x.py" =
      some ⟨0, 0, []⟩ :=
  ⟨by decide, claim_C8_failure_handling.1 (fun _ _ => 0) [("x.py", none)] []
    "x.py" (by decide)⟩

/-- C9 counterexample: a Java file whose imports resolve to `z/B.java` and
then `a/A.java` yields a delivered record whose dependencies array is in
that insertion order — not sorted by `file_name`; `analyzeGitRepo` converts
the dependency map with `Array.from(...).map(...)` and never sorts. -/
theorem claim_C9_counterexample :
    (aget unsortedPayload "Main.java").map (fun r => r.dependencies) =
      some [⟨"z/B.java", 1⟩, ⟨"a/A.java", 1⟩] ∧
    (aget unsortedPayload "Main.java").map
      (fun r => sortedByFileName r.dependencies) = some false :=
  ⟨by decide, by decide⟩

/-- C9 (amended): for every successfully read file, the delivered
dependencies array lists exactly the analyzer dependency map's entries in
map insertion order (the order the imports were resolved), with no
sorting. -/
theorem claim_C9_insertion_order
    (score : String → String → Nat)
    (files : List (String × Option String))
    (allDeps : List (String × List (String × Nat)))
    (f content : String)
    (h : aget files f = some (some content)) :
    aget (mkFileData score files allDeps) f =
      some ⟨score f content, lineCountOf content,
        ((aget allDeps f).getD []).map (fun e => FileDependency.mk e.1 e.2)⟩ := by
  induction files with
  | nil => simp [aget] at h
  | cons fc rest ih =>
    obtain ⟨f2, c2⟩ := fc
    rw [aget] at h
    by_cases hf : f2 = f
    · rw [if_pos (by simp [hf])] at h
      have hc : c2 = some content := by simpa using h
      subst hc
      subst hf
      simp [mkFileData, aget]
    · rw [if_neg (by simp [hf])] at h
      have hrec := ih h
      cases c2 with
      | none =>
        simpa [mkFileData, aget, hf] using hrec
      | some c3 =>
        simpa [mkFileData, aget, hf] using hrec

/-- C9 witness: the insertion-order equation applied to a concrete file
with an unsorted two-entry dependency map. -/
theorem claim_C9_witness :
    aget ([("m.java", some "x")] : List (String × Option String)) "m.java" =
      some (some "x") ∧
    aget (mkFileData (fun _ _ => 7) [("m.java", some "x")]
        [("m.java", [("z.java", 1), ("a.java", 2)])]) "m.java" =
      some ⟨7, 1, [⟨"z.java", 1⟩, ⟨"a.java", 2⟩]⟩ :=
  ⟨by decide,
   claim_C9_insertion_order (fun _ _ => 7) [("m.java", some "x")]
     [("m.java", [("z.java", 1), ("a.java", 2)])] "m.java" "x" (by decide)⟩

/-- C10: over every sequence of attempted sends, the frames enqueued by the
streaming route handler never continue past a terminal frame: at most one
terminal frame is enqueued, and no frame of any kind follows it, because all
three senders return without effect once the closed flag is set (and the
terminal senders set it on every path). -/
theorem claim_C10_stream_terminal (evs : List Ev) :
    noFrameAfterTerminal (runSends evs).frames = true := by
  have h := runSends_ok evs
  unfold okState at h
  split at h
  · exact h
  · exact terminalFree_noFrameAfter _ h

/-- C10 witness: a concrete run — progress, complete, then attempted
progress, error and a second complete — enqueues exactly one terminal frame
and nothing after it. -/
theorem claim_C10_witness :
    noFrameAfterTerminal (runSends
      [Ev.progress "cloning" true, Ev.complete true,
       Ev.progress "late" true, Ev.error "late" true,
       Ev.complete true]).frames = true :=
  claim_C10_stream_terminal _

end Claims
